import Mathlib

/-!
Shallow embedding of the HMM prediction pipeline of
`code/analyze/predict.py` (classes `Predictor` and `HMM_Builder`), together
with proofs about the encoding, parameter-initialization and block-extraction
steps.

Conventions of the embedding:
* Python strings of alignment or coded-sequence characters are `List Char`;
  state names are `String`.
* Python floats are modelled by exact rationals `ℚ`.
* Python dicts are insertion-ordered association lists; a raised exception
  (`IndexError`, `KeyError`, `ValueError`) is modelled by `Option.none`.
-/

namespace Introgression

/-- The symbol table of `HMM_Builder.__init__` (`self.symbols`): the special
characters used when coding alignments.  Configuration may override any
entry, so the table is a parameter of every coding function. -/
structure Symbols where
  matchSym : Char
  mismatchSym : Char
  unknownSym : Char
  unsequencedSym : Char
  gapSym : Char
  unalignedSym : Char
  maskedSym : Char
deriving DecidableEq

/-- The default symbol table of `HMM_Builder.__init__`.  Note the default
mismatch and gap symbols coincide. -/
def defaultSymbols : Symbols :=
  { matchSym := '+', mismatchSym := '-', unknownSym := '?',
    unsequencedSym := 'n', gapSym := '-', unalignedSym := '?',
    maskedSym := 'x' }

/-- Python dict lookup `d[k]` on an insertion-ordered association list,
returning the first binding (built dicts never hold a key twice). -/
def dlookup {α β : Type} [DecidableEq α] : List (α × β) → α → Option β
  | [], _ => none
  | (k', v) :: rest, k => if k' = k then some v else dlookup rest k

/-- Python dict assignment `d[k] = v`: replace the binding of `k` in place,
or append a new binding at the end. -/
def dictSet {α β : Type} [DecidableEq α] : List (α × β) → α → β → List (α × β)
  | [], k, v => [(k, v)]
  | (k', v') :: rest, k, v =>
    if k' = k then (k, v) :: rest else (k', v') :: dictSet rest k v

/-- Python `d[k].append(b)` for a dict of lists: `none` models the `KeyError`
raised when `k` is not a key of `d`. -/
def dictAppend {α β : Type} [DecidableEq α] : List (α × List β) → α → β → Option (List (α × List β))
  | [], _, _ => none
  | (k', vs) :: rest, k, v =>
    if k' = k then some ((k', vs ++ [v]) :: rest)
    else (dictAppend rest k v).map (fun d => (k', vs) :: d)

/-- The scan loop of `Predictor.convert_to_blocks` (predict.py lines
548-556), recording each emitted block as `(label, block_start, block_end)`
in scan order.  At entry `prev` is the label of the current run,
`[bstart, bend]` its index range so far, and `i` the index, in the full
sequence, of the head of `rest`.  The trailing block appended after the
source loop (line 561) is the base case. -/
def blocksLoop : List String → String → Nat → Nat → Nat → List (String × Nat × Nat)
  | [], prev, bstart, bend, _ => [(prev, bstart, bend)]
  | x :: rest, prev, bstart, bend, i =>
    if x = prev then blocksLoop rest prev bstart i (i + 1)
    else (prev, bstart, bend) :: blocksLoop rest x i i (i + 1)

/-- The same scan carrying the `blocks` dict exactly as the source does: a
block is appended to `blocks[prev_species]` when the label changes (a
`KeyError`, i.e. `none`, when `prev_species` is not a key), and before the
final block is appended its key is created if absent (lines 558-561). -/
def blocksLoopD : List String → List (String × List (Nat × Nat)) → String → Nat → Nat → Nat →
    Option (List (String × List (Nat × Nat)))
  | [], d, prev, bstart, bend, _ =>
    dictAppend (if (dlookup d prev).isSome then d else d ++ [(prev, [])]) prev (bstart, bend)
  | x :: rest, d, prev, bstart, bend, i =>
    if x = prev then blocksLoopD rest d prev bstart i (i + 1)
    else (dictAppend d prev (bstart, bend)).bind (fun d' => blocksLoopD rest d' x i i (i + 1))

/-- `Predictor.convert_to_blocks` (predict.py lines 535-563): the per-state
dict of `(start, end)` blocks of a state-label sequence.  `none` models the
`IndexError` of `state_seq[0]` on an empty sequence.  The first loop
iteration (`i = 0`) always finds `state_seq[0] == prev_species`, so it is
folded into the starting accumulator `block_start = block_end = 0`, `i = 1`.
The dict is seeded with an empty list for every state of `self.states`. -/
def convert_to_blocks (states : List String) (state_seq : List String) :
    Option (List (String × List (Nat × Nat))) :=
  match state_seq with
  | [] => none
  | s0 :: rest => blocksLoopD rest (states.foldl (fun d s => dictSet d s []) ([] : List (String × List (Nat × Nat)))) s0 0 0 1

/-- The blocks of `convert_to_blocks` in scan order (equivalently: ordered by
start index across all states), each tagged with its state label, before
they are distributed into the per-state dict. -/
def convert_to_blocks_list (state_seq : List String) : Option (List (String × Nat × Nat)) :=
  match state_seq with
  | [] => none
  | s0 :: rest => some (blocksLoop rest s0 0 0 1)

/-- Concatenating a tagged block list back into a per-site label sequence:
each block's label repeated `block_end - block_start + 1` times. -/
def blockFlat (bl : List (String × Nat × Nat)) : List String :=
  bl.flatMap (fun b => List.replicate (b.2.2 - b.2.1 + 1) b.1)

/-- A character that is neither the gap symbol nor the unsequenced symbol
(the `isvalid` mask of `ungap_and_code`). -/
def isValidChar (sym : Symbols) (c : Char) : Bool :=
  decide (c ≠ sym.gapSym) && decide (c ≠ sym.unsequencedSym)

/-- Column `c` holds only valid characters in the predicted sequence and in
every reference sequence (`np.all(isvalid, axis=0)` in `ungap_and_code`).
Out-of-range accesses default to the gap symbol, which is invalid, so the
predicate is false beyond the aligned length. -/
def columnValid (sym : Symbols) (predict_seq : List Char) (ref_seqs : List (List Char))
    (c : Nat) : Bool :=
  isValidChar sym (predict_seq.getD c sym.gapSym) &&
    ref_seqs.all (fun r => isValidChar sym (r.getD c sym.gapSym))

/-- The coded symbol of column `c`: per reference, in order, the match symbol
when its base equals the predicted base, else the mismatch symbol (the
`matches` array of `ungap_and_code`). -/
def codeColumn (sym : Symbols) (predict_seq : List Char) (ref_seqs : List (List Char))
    (c : Nat) : List Char :=
  ref_seqs.map (fun r =>
    if r.getD c sym.gapSym = predict_seq.getD c sym.gapSym
    then sym.matchSym else sym.mismatchSym)

/-- Column `c` is a non-gap position of the designated index reference
(row `index_ref + 1` of the `isbase` mask in `ungap_and_code`; the
unsequenced symbol still counts as a base here). -/
def indexRefBase (sym : Symbols) (ref_seqs : List (List Char)) (index_ref : Nat)
    (c : Nat) : Bool :=
  decide ((ref_seqs.getD index_ref []).getD c sym.gapSym ≠ sym.gapSym)

/-- `HMM_Builder.ungap_and_code` (predict.py lines 877-913): code every
fully-valid alignment column, and report, for each such column, its index
among the index reference's non-gap columns (`np.where` over the columns
selected by the index reference's `isbase` row). -/
def ungap_and_code (sym : Symbols) (predict_seq : List Char) (ref_seqs : List (List Char))
    (index_ref : Nat := 0) : List (List Char) × List Nat :=
  let n := predict_seq.length
  let coded := ((List.range n).filter (columnValid sym predict_seq ref_seqs)).map
    (codeColumn sym predict_seq ref_seqs)
  let baseCols := (List.range n).filter (indexRefBase sym ref_seqs index_ref)
  let positions := (List.range baseCols.length).filter
    (fun k => columnValid sym predict_seq ref_seqs (baseCols.getD k 0))
  (coded, positions)

/-- `HMM_Builder.poly_sites` (predict.py lines 915-931): drop every site
whose symbol consists only of match symbols, keeping coded sequence and
positions in step.  `none` models the `IndexError` of `sequences[0]` on an
empty coded sequence.  The all-match test compares each symbol's match-symbol
count against the length of the first symbol, exactly as the source does. -/
def poly_sites (sym : Symbols) (sequences : List (List Char)) (positions : List Nat) :
    Option (List (List Char) × List Nat) :=
  match sequences with
  | [] => none
  | s0 :: _ =>
    let seq_len := s0.length
    let retained := (sequences.zip positions).filter
      (fun sp => decide (sp.1.count sym.matchSym ≠ seq_len))
    some (retained.map Prod.fst, retained.map Prod.snd)

/-- One state's entry in the validated configuration
(`analysis_params.known_states` / `analysis_params.unknown_states`): a name,
an expected tract length and an expected genome fraction. -/
structure StateConfig where
  name : String
  expected_length : ℚ
  expected_fraction : ℚ
deriving DecidableEq

/-- The slice of the configuration read by `HMM_Builder.set_expected_values`:
the known-state list (reference excluded), the unknown-state list, and the
reference state's name (`analysis_params.reference.name`). -/
structure AnalysisConfig where
  known_states : List StateConfig
  unknown_states : List StateConfig
  reference : String
deriving DecidableEq

/-- Modelled from the spec: `misc.config_utils.get_states` is not under
`src/`.  Per the spec the known-state name list is ordered with the baseline
(reference) state first, followed by the configured known states; unknown
state names are listed separately. -/
def get_states (cfg : AnalysisConfig) : List String × List String :=
  (cfg.reference :: cfg.known_states.map (fun s => s.name),
   cfg.unknown_states.map (fun s => s.name))

/-- The fields of `HMM_Builder` written by `set_expected_values` and read by
the parameter-initialization methods.  The two `expected_*` dicts are
insertion-ordered association lists. -/
structure Builder where
  known_states : List String
  unknown_states : List String
  expected_lengths : List (String × ℚ)
  expected_fractions : List (String × ℚ)
  ref_state : String
  ref_fraction : ℚ
  other_sum : ℚ
deriving DecidableEq

/-- Python `d[k]` on a float dict (`0` in place of a `KeyError`; every lookup
the claims exercise is of a present key). -/
def dictGet (d : List (String × ℚ)) (k : String) : ℚ :=
  (dlookup d k).getD 0

/-- `HMM_Builder.set_expected_values` (predict.py lines 646-683): read each
configured state's expected length and fraction into dicts, derive the
reference state's fraction as one minus the sum of all configured fractions,
and precompute `ref_fraction` (reference plus unknown fractions) and
`other_sum` (sum of fraction/length over the configured known states). -/
def set_expected_values (cfg : AnalysisConfig) : Builder :=
  let lens := (cfg.known_states ++ cfg.unknown_states).foldl
    (fun d s => dictSet d s.name s.expected_length) []
  let fracs0 := (cfg.known_states ++ cfg.unknown_states).foldl
    (fun d s => dictSet d s.name s.expected_fraction) []
  let fracs := dictSet fracs0 cfg.reference (1 - (fracs0.map Prod.snd).sum)
  { known_states := (get_states cfg).1
    unknown_states := (get_states cfg).2
    expected_lengths := lens
    expected_fractions := fracs
    ref_state := cfg.reference
    ref_fraction := dictGet fracs cfg.reference +
      ((get_states cfg).2.map (fun s => dictGet fracs s)).sum
    other_sum := (cfg.known_states.map
      (fun s => dictGet fracs s.name / dictGet lens s.name)).sum }

/-- `HMM_Builder.update_expected_length` (predict.py lines 685-696): set the
reference state's expected tract length from the total sequence length. -/
def update_expected_length (b : Builder) (total_length : ℚ) : Builder :=
  let value := total_length * b.ref_fraction / (total_length * b.other_sum + 1)
  { b with expected_lengths := dictSet b.expected_lengths b.ref_state value }

/-- The formula claim C6 states for the reference state's expected tract
length: as the code's, but with the denominator sum ranging over all
non-baseline states — configured known states and unknown states alike. -/
def claimC6_expected_length (cfg : AnalysisConfig) (total_length : ℚ) : ℚ :=
  let all_fracs := ((cfg.known_states ++ cfg.unknown_states).map
    (fun s => s.expected_fraction)).sum
  let baseline_fraction := (1 - all_fracs) +
    (cfg.unknown_states.map (fun s => s.expected_fraction)).sum
  total_length * baseline_fraction /
    (total_length * ((cfg.known_states ++ cfg.unknown_states).map
      (fun s => s.expected_fraction / s.expected_length)).sum + 1)

/-- The weighted per-reference match frequencies of
`HMM_Builder.get_symbol_freqs` (predict.py lines 619-644): for each of the
`k` reference positions, the number of match symbols in that position over
the whole coded sequence, divided by the total match count over all
positions (the Python `total = sum(weighted)`).  `k` is the common symbol
length (the row count of `np.transpose`); the `getD` default is never hit on
symbols of length at least `k`. -/
def weighted_match_freqs (sym : Symbols) (sequence : List (List Char)) (k : Nat) : List ℚ :=
  let weighted := (List.range k).map
    (fun i => ((sequence.map (fun s => s.getD i sym.unknownSym)).count sym.matchSym : ℚ))
  weighted.map (fun w => w / weighted.sum)

/-- The empirical estimate as claim C7 states it: for each reference
position, the fraction of sites whose column is a match — match count
divided by the number of sites, not by the total match count. -/
def claimC7_match_site_fractions (sym : Symbols) (sequence : List (List Char)) (k : Nat) :
    List ℚ :=
  (List.range k).map
    (fun i => ((sequence.map (fun s => s.getD i sym.unknownSym)).count sym.matchSym : ℚ) /
      (sequence.length : ℚ))

/-- `HMM_Builder.initial_probabilities` (predict.py lines 698-718): known
states blend the prior expected fraction (weight 0.9) with the estimated
weighted match frequency (weight 0.1); unknown states take the prior
fraction; the vector is divided by its sum. -/
def initial_probabilities (b : Builder) (weighted_match : List ℚ) : List ℚ :=
  let expectation_weight : ℚ := 9/10
  let init :=
    (List.range b.known_states.length).map (fun s =>
      dictGet b.expected_fractions (b.known_states.getD s "") * expectation_weight +
        weighted_match.getD s 0 * (1 - expectation_weight)) ++
    b.unknown_states.map (fun state => dictGet b.expected_fractions state)
  init.map (fun x => x / init.sum)

/-- `HMM_Builder.emission_probabilities` (predict.py lines 720-774).  The
four base-pattern probabilities are keyed on two-character symbols — the
symbol's first-reference character followed by the state's own character —
and scaled by `2 ** (len(known_states) - 2)` (an integer exponent, matching
Python's float semantics for negative exponents).  Each known state's column
is divided by its sum over the observed symbols (`emissions /= sum(emissions)`
sums along axis 0); each unknown state gets the mismatch-biased match count
`m + 0.99 * (L - 2 * m)` divided by its sum over all symbols.  The result is
one `(symbol, probability)` table per state, known states first.  (With a
configuration where the match and mismatch symbols coincide the Python dict
literal would collapse duplicate keys; the claims assume distinct symbols.) -/
def emission_probabilities (sym : Symbols) (nk nu : Nat) (symbols : List (List Char)) :
    List (List (List Char × ℚ)) :=
  let m := sym.matchSym
  let mm := sym.mismatchSym
  let probabilities : List (List Char × ℚ) :=
    [([mm, m], 9/10), ([m, m], 9/100), ([mm, mm], 9/1000), ([m, mm], 1/1000)]
  let mismatch_bias : ℚ := 99/100
  let num_per_category : ℚ := (2 : ℚ) ^ ((nk : ℤ) - 2)
  let symbol_length := (symbols.headD []).length
  let weight : List Char → Nat → ℚ := fun x i =>
    num_per_category *
      ((dlookup probabilities [x.getD 0 sym.unknownSym, x.getD i sym.unknownSym]).getD 0)
  let number_matches : List Char → ℚ := fun x =>
    (x.count m : ℚ) + mismatch_bias * ((symbol_length : ℚ) - 2 * (x.count m : ℚ))
  (List.range nk).map (fun i =>
    symbols.map (fun x => (x, weight x i / (symbols.map (fun y => weight y i)).sum))) ++
  (List.range nu).map (fun _ =>
    symbols.map (fun x => (x, number_matches x / (symbols.map number_matches).sum)))

/-- `HMM_Builder.transition_probabilities` (predict.py lines 776-801).
`lengths` holds the reciprocals `1 / expected_length`, as in the source; the
pre-normalization matrix has off-diagonal entries
`lengths[i] * (1 / (1 - fractions[i])) * fractions[j]` (the `np.outer`) and
diagonal `1 - lengths[i]` (`np.fill_diagonal`); each row is then divided by
its sum. -/
def transition_probabilities (b : Builder) : List (List ℚ) :=
  let states := b.known_states ++ b.unknown_states
  let fractions := states.map (fun s => dictGet b.expected_fractions s)
  let lengths := states.map (fun s => 1 / dictGet b.expected_lengths s)
  let pre := (List.range states.length).map (fun i =>
    (List.range states.length).map (fun j =>
      if i = j then 1 - lengths.getD i 0
      else lengths.getD i 0 * (1 / (1 - fractions.getD i 0)) * fractions.getD j 0))
  pre.map (fun row => row.map (fun x => x / row.sum))

/-- The stored threshold of a `Predictor`: either the string `viterbi` or a
parsed float. -/
inductive Threshold where
  | viterbi : Threshold
  | num : ℚ → Threshold
deriving DecidableEq

/-- `Predictor.set_threshold` (predict.py lines 137-152): try to parse the
configured value as a float; on failure accept exactly the string `viterbi`,
otherwise raise `ValueError` (`none`).  `parse_float` abstracts Python's
builtin `float` parser, which is external to the repository. -/
def set_threshold (parse_float : String → Option ℚ) (value : String) : Option Threshold :=
  match parse_float value with
  | some f => some (Threshold.num f)
  | none => if value = "viterbi" then some Threshold.viterbi else none

/-- Modelled from the spec: `sim_process.get_max_path` is not under `src/`.
Per the spec, each site is assigned the state of highest posterior (ties
prefer the lower-indexed state) together with that posterior. -/
def argmax_site (site : List ℚ) : Nat × ℚ :=
  site.enum.foldl (fun best p => if p.2 > best.2 then p else best) (0, site.headD 0)

/-- Modelled from the spec: `sim_process.get_max_path`, returning per site
the argmax state name and the maximal posterior. -/
def get_max_path (probabilities : List (List ℚ)) (hidden_states : List String) :
    List String × List ℚ :=
  (probabilities.map (fun site => hidden_states.getD (argmax_site site).1 ""),
   probabilities.map (fun site => (argmax_site site).2))

/-- Modelled from the spec: `sim_process.threshold_predicted` is not under
`src/`.  Per the spec, a site keeps its argmax state exactly when its
posterior exceeds the threshold (ties at the boundary fail closed), else it
is assigned the baseline state. -/
def threshold_predicted (path : List String) (path_probs : List ℚ) (threshold : ℚ)
    (baseline : String) : List String :=
  (path.zip path_probs).map (fun sp => if sp.2 > threshold then sp.1 else baseline)

/-- Modelled from the spec: `sim_predict.convert_predictions` is not under
`src/`.  It maps a Viterbi path of state indices to state labels. -/
def convert_predictions (path : List Nat) (states : List String) : List String :=
  path.map (fun i => states.getD i "")

/-- `Predictor.process_path` (predict.py lines 513-533): with a float
threshold, threshold the max-posterior path against the baseline (first
known) state; otherwise convert the Viterbi path to state labels.  The
posterior matrix and the Viterbi index path stand for
`hmm.posterior_decoding()[0]` and `hmm.viterbi()` of the external `hmm_bw`
module. -/
def process_path (threshold : Threshold) (known_states unknown_states : List String)
    (posterior : List (List ℚ)) (viterbi_path : List Nat) : List String :=
  match threshold with
  | Threshold.num t =>
    let mp := get_max_path posterior (known_states ++ unknown_states)
    threshold_predicted mp.1 mp.2 t (known_states.headD "")
  | Threshold.viterbi => convert_predictions viterbi_path (known_states ++ unknown_states)

/-- The pre-normalization transition matrix entry exactly as claim C5 states
it: off-diagonal `(1 / expected_length[i]) * (expected_fraction[j] /
(1 - expected_fraction[i]))`, diagonal `1 - 1 / expected_length[i]`. -/
def claimC5_pre (b : Builder) (i j : Nat) : ℚ :=
  let states := b.known_states ++ b.unknown_states
  if i = j
  then 1 - 1 / dictGet b.expected_lengths (states.getD i "")
  else (1 / dictGet b.expected_lengths (states.getD i "")) *
    (dictGet b.expected_fractions (states.getD j "") /
      (1 - dictGet b.expected_fractions (states.getD i "")))

/-- The row sum of the claim-C5 pre-normalization matrix. -/
def claimC5_rowsum (b : Builder) (i : Nat) : ℚ :=
  ((List.range (b.known_states ++ b.unknown_states).length).map (claimC5_pre b i)).sum

/-- A concrete two-state builder (one known, one unknown state) used by the
witnesses. -/
def builderC5ex : Builder :=
  { known_states := ["A"], unknown_states := ["U"],
    expected_lengths := [("A", 4), ("U", 5)],
    expected_fractions := [("A", 3/4), ("U", 1/4)],
    ref_state := "A", ref_fraction := 0, other_sum := 0 }

/-- A concrete configuration — one non-reference known state, one unknown
state — on which the claim-C6 denominator (sum over all non-baseline states)
differs from the code's (sum over configured known states only). -/
def cfgC6ex : AnalysisConfig :=
  { known_states := [{ name := "K", expected_length := 10, expected_fraction := 1/10 }],
    unknown_states := [{ name := "U", expected_length := 5, expected_fraction := 1/5 }],
    reference := "R" }

/-- A concrete two-known-state builder for the claim-C7 counterexample. -/
def builderC7ex : Builder :=
  { known_states := ["A", "B"], unknown_states := [],
    expected_lengths := [],
    expected_fractions := [("A", 1/10), ("B", 1/2)],
    ref_state := "A", ref_fraction := 0, other_sum := 0 }

/-- The two-site coded sequence of the claim-C7 counterexample: reference A
matches at both sites, reference B at the first only. -/
def seqC7ex : List (List Char) := [['+', '+'], ['+', '-']]

/-- The unnormalized initial vector with the code's actual empirical
estimate spelled out: known state `i` gets `0.9 * prior + 0.1 *
(match count of reference i / total match count over all references)`;
unknown states get their prior fraction. -/
def claimC7_init (b : Builder) (sym : Symbols) (seq : List (List Char)) : List ℚ :=
  let nk := b.known_states.length
  let count := fun i =>
    ((seq.map (fun s => s.getD i sym.unknownSym)).count sym.matchSym : ℚ)
  let total := ((List.range nk).map count).sum
  (List.range nk).map (fun i =>
      dictGet b.expected_fractions (b.known_states.getD i "") * (9/10) +
        (count i / total) * (1/10)) ++
    b.unknown_states.map (fun u => dictGet b.expected_fractions u)

/-- The fixed base pattern of claim C8 as a function of a two-character
combination: mismatch-then-match 0.9, match-match 0.09, mismatch-mismatch
0.009, match-mismatch 0.001. -/
def claimC8_base (sym : Symbols) (a b : Char) : ℚ :=
  if a = sym.mismatchSym ∧ b = sym.matchSym then 9/10
  else if a = sym.matchSym ∧ b = sym.matchSym then 9/100
  else if a = sym.mismatchSym ∧ b = sym.mismatchSym then 9/1000
  else 1/1000

/-- The known-state emission weight of claim C8: the base pattern indexed by
the symbol's first-reference character and its state-`i` character, scaled
by `2 ^ (nk - 2)`. -/
def claimC8_weight (sym : Symbols) (nk : Nat) (x : List Char) (i : Nat) : ℚ :=
  (2 : ℚ) ^ ((nk : ℤ) - 2) *
    claimC8_base sym (x.getD 0 sym.unknownSym) (x.getD i sym.unknownSym)

/-- The unknown-state raw emission weight of claim C8 for a symbol of length
`L` with `m` match characters: `0.01 * m + 0.99 * (L - m)`. -/
def claimC8_unknown (sym : Symbols) (L : Nat) (x : List Char) : ℚ :=
  (1/100) * (x.count sym.matchSym : ℚ) +
    (99/100) * ((L : ℚ) - (x.count sym.matchSym : ℚ))

lemma blockFlat_cons (b : String × Nat × Nat) (bl : List (String × Nat × Nat)) :
    blockFlat (b :: bl) = List.replicate (b.2.2 - b.2.1 + 1) b.1 ++ blockFlat bl := by
  simp [blockFlat]

lemma blocksLoop_flat (rest : List String) (prev : String) (bstart bend i : Nat)
    (hbe : bend + 1 = i) (hsb : bstart ≤ bend) :
    blockFlat (blocksLoop rest prev bstart bend i) =
      List.replicate (bend - bstart + 1) prev ++ rest := by
  induction rest generalizing prev bstart bend i with
  | nil => simp [blocksLoop, blockFlat]
  | cons x r ih =>
    by_cases h : x = prev
    · rw [blocksLoop, if_pos h, ih prev bstart i (i + 1) rfl (by omega)]
      have h2 : i - bstart + 1 = (bend - bstart + 1) + 1 := by omega
      rw [h2, List.replicate_succ']
      subst h
      simp
    · rw [blocksLoop, if_neg h, blockFlat_cons, ih x i i (i + 1) rfl (le_refl i)]
      simp

lemma blocksLoop_bounds (rest : List String) (prev : String) (bstart bend i : Nat)
    (hbe : bend + 1 = i) (hsb : bstart ≤ bend) :
    ∀ b ∈ blocksLoop rest prev bstart bend i,
      bstart ≤ b.2.1 ∧ b.2.1 ≤ b.2.2 ∧ b.2.2 < i + rest.length := by
  induction rest generalizing prev bstart bend i with
  | nil =>
    intro b hb
    simp only [blocksLoop, List.mem_singleton] at hb
    subst hb
    simpa using by omega
  | cons x r ih =>
    intro b hb
    by_cases h : x = prev
    · rw [blocksLoop, if_pos h] at hb
      have h3 := ih prev bstart i (i + 1) rfl (by omega) b hb
      refine ⟨h3.1, h3.2.1, ?_⟩
      have := h3.2.2
      simp only [List.length_cons]
      omega
    · rw [blocksLoop, if_neg h] at hb
      rcases List.mem_cons.mp hb with hb | hb
      · subst hb
        simp only [List.length_cons]
        exact ⟨le_refl _, hsb, by omega⟩
      · have h3 := ih x i i (i + 1) rfl (le_refl i) b hb
        refine ⟨by omega, h3.2.1, ?_⟩
        have := h3.2.2
        simp only [List.length_cons]
        omega

lemma blocksLoop_pairwise (rest : List String) (prev : String) (bstart bend i : Nat)
    (hbe : bend + 1 = i) (hsb : bstart ≤ bend) :
    List.Pairwise (fun a b => a.2.2 < b.2.1) (blocksLoop rest prev bstart bend i) := by
  induction rest generalizing prev bstart bend i with
  | nil => simp [blocksLoop]
  | cons x r ih =>
    by_cases h : x = prev
    · rw [blocksLoop, if_pos h]
      exact ih prev bstart i (i + 1) rfl (by omega)
    · rw [blocksLoop, if_neg h]
      refine List.Pairwise.cons ?_ (ih x i i (i + 1) rfl (le_refl i))
      intro b hb
      have h3 := blocksLoop_bounds r x i i (i + 1) rfl (le_refl i) b hb
      have := h3.1
      simp only []
      omega

lemma blocksLoop_head (rest : List String) (prev : String) (bstart bend i : Nat) :
    ∃ p q t, blocksLoop rest prev bstart bend i = (prev, p, q) :: t := by
  induction rest generalizing prev bstart bend i with
  | nil => exact ⟨bstart, bend, [], rfl⟩
  | cons x r ih =>
    by_cases h : x = prev
    · rw [blocksLoop, if_pos h]
      exact ih prev bstart i (i + 1)
    · rw [blocksLoop, if_neg h]
      exact ⟨bstart, bend, _, rfl⟩

lemma blocksLoop_chain (rest : List String) (prev : String) (bstart bend i : Nat) :
    List.Chain' (fun a b => a.1 ≠ b.1) (blocksLoop rest prev bstart bend i) := by
  induction rest generalizing prev bstart bend i with
  | nil => simp [blocksLoop]
  | cons x r ih =>
    by_cases h : x = prev
    · rw [blocksLoop, if_pos h]
      exact ih prev bstart i (i + 1)
    · rw [blocksLoop, if_neg h]
      obtain ⟨p, q, t, heq⟩ := blocksLoop_head r x i i (i + 1)
      rw [heq, List.chain'_cons]
      refine ⟨by simpa using fun hc => h hc.symm, ?_⟩
      have := ih x i i (i + 1)
      rwa [heq] at this

lemma dlookup_dictSet {α β : Type} [DecidableEq α] (d : List (α × β)) (k : α) (v : β) (k' : α) :
    dlookup (dictSet d k v) k' = if k = k' then some v else dlookup d k' := by
  induction d with
  | nil =>
    by_cases h : k = k' <;> simp [dictSet, dlookup, h]
  | cons p rest ih =>
    obtain ⟨k0, v0⟩ := p
    by_cases h0 : k0 = k
    · subst h0
      rw [dictSet, if_pos rfl]
      by_cases h : k0 = k' <;> simp [dlookup, h]
    · rw [dictSet, if_neg h0]
      by_cases h : k0 = k'
      · subst h
        have : ¬ k = k0 := fun hc => h0 hc.symm
        simp [dlookup, this]
      · simp [dlookup, h, ih]

lemma dictAppend_isSome {α β : Type} [DecidableEq α] (d : List (α × List β)) (k : α) (v : β) :
    (dictAppend d k v).isSome ↔ (dlookup d k).isSome := by
  induction d with
  | nil => simp [dictAppend, dlookup]
  | cons p rest ih =>
    obtain ⟨k0, vs⟩ := p
    by_cases h : k0 = k <;> simp [dictAppend, dlookup, h, ih]

lemma dlookup_dictAppend {α β : Type} [DecidableEq α] (d : List (α × List β)) (k : α) (v : β)
    (d' : List (α × List β)) (h : dictAppend d k v = some d') (k' : α) :
    dlookup d' k' = if k = k' then (dlookup d k).map (fun vs => vs ++ [v]) else dlookup d k' := by
  induction d generalizing d' with
  | nil => simp [dictAppend] at h
  | cons p rest ih =>
    obtain ⟨k0, vs⟩ := p
    by_cases h0 : k0 = k
    · subst h0
      rw [dictAppend, if_pos rfl] at h
      obtain rfl := Option.some.injEq _ _ ▸ h
      by_cases h' : k0 = k' <;> simp [dlookup, h']
    · rw [dictAppend, if_neg h0] at h
      obtain ⟨d2, hd2, rfl⟩ := Option.map_eq_some'.mp h
      by_cases h' : k0 = k'
      · subst h'
        have hkk0 : ¬ k = k0 := fun hc => h0 hc.symm
        simp [dlookup, hkk0, h0]
      · simp [dlookup, h', h0, ih d2 hd2]

lemma dlookup_append_some {α β : Type} [DecidableEq α] (d e : List (α × β)) (k : α) (v : β)
    (h : dlookup d k = some v) : dlookup (d ++ e) k = some v := by
  induction d with
  | nil => simp [dlookup] at h
  | cons p rest ih =>
    obtain ⟨k0, v0⟩ := p
    by_cases h0 : k0 = k
    · simp_all [dlookup]
    · rw [dlookup, if_neg h0] at h
      simpa [dlookup, h0] using ih h

lemma dlookup_append_none {α β : Type} [DecidableEq α] (d e : List (α × β)) (k : α)
    (h : dlookup d k = none) : dlookup (d ++ e) k = dlookup e k := by
  induction d with
  | nil => simp
  | cons p rest ih =>
    obtain ⟨k0, v0⟩ := p
    by_cases h0 : k0 = k
    · simp [dlookup, h0] at h
    · rw [dlookup, if_neg h0] at h
      simpa [dlookup, h0] using ih h

lemma blocksLoopD_lookup (rest : List String) (d : List (String × List (Nat × Nat)))
    (prev : String) (bstart bend i : Nat) (d' : List (String × List (Nat × Nat)))
    (h : blocksLoopD rest d prev bstart bend i = some d') (k : String) (v : List (Nat × Nat))
    (hk : dlookup d k = some v) :
    dlookup d' k =
      some (v ++ ((blocksLoop rest prev bstart bend i).filter (fun b => b.1 = k)).map
        (fun b => b.2)) := by
  induction rest generalizing d prev bstart bend i v with
  | nil =>
    rw [blocksLoopD] at h
    by_cases hp : prev = k
    · have hsome : (dlookup d prev).isSome := by rw [hp, hk]; rfl
      rw [if_pos hsome] at h
      rw [dlookup_dictAppend _ _ _ _ h, if_pos hp, hp, hk]
      simp [blocksLoop, hp]
    · have hup : dlookup (if (dlookup d prev).isSome then d else d ++ [(prev, [])]) k =
          some v := by
        by_cases hs : (dlookup d prev).isSome
        · rwa [if_pos hs]
        · rw [if_neg hs]
          exact dlookup_append_some _ _ _ _ hk
      rw [dlookup_dictAppend _ _ _ _ h, if_neg hp, hup]
      simp [blocksLoop, hp]
  | cons x r ih =>
    by_cases hx : x = prev
    · rw [blocksLoopD, if_pos hx] at h
      rw [blocksLoop, if_pos hx]
      exact ih d prev bstart i (i + 1) h v hk
    · rw [blocksLoopD, if_neg hx] at h
      obtain ⟨d2, hd2, hrec⟩ := Option.bind_eq_some.mp h
      rw [blocksLoop, if_neg hx, List.filter_cons]
      by_cases hp : prev = k
      · have hk2 : dlookup d2 k = some (v ++ [(bstart, bend)]) := by
          rw [dlookup_dictAppend _ _ _ _ hd2, if_pos hp, hp, hk]
          rfl
        rw [ih d2 x i i (i + 1) hrec _ hk2]
        simp [hp]
      · have hk2 : dlookup d2 k = some v := by
          rw [dlookup_dictAppend _ _ _ _ hd2, if_neg hp]
          exact hk
        rw [ih d2 x i i (i + 1) hrec _ hk2]
        simp [hp]

lemma blocksLoopD_lookup_none (rest : List String) (d : List (String × List (Nat × Nat)))
    (prev : String) (bstart bend i : Nat) (d' : List (String × List (Nat × Nat)))
    (h : blocksLoopD rest d prev bstart bend i = some d') (k : String)
    (hk : dlookup d k = none) :
    dlookup d' k = none ∨
      dlookup d' k =
        some (((blocksLoop rest prev bstart bend i).filter (fun b => b.1 = k)).map
          (fun b => b.2)) := by
  induction rest generalizing d prev bstart bend i with
  | nil =>
    rw [blocksLoopD] at h
    by_cases hp : prev = k
    · subst hp
      rw [hk, Option.isSome_none, if_neg (by simp)] at h
      right
      rw [dlookup_dictAppend _ _ _ _ h, if_pos rfl,
        dlookup_append_none _ _ _ hk]
      simp [dlookup, blocksLoop]
    · left
      rw [dlookup_dictAppend _ _ _ _ h, if_neg hp]
      by_cases hs : (dlookup d prev).isSome
      · rwa [if_pos hs]
      · rw [if_neg hs, dlookup_append_none _ _ _ hk, dlookup, if_neg hp]
        rfl
  | cons x r ih =>
    by_cases hx : x = prev
    · rw [blocksLoopD, if_pos hx] at h
      rw [blocksLoop, if_pos hx]
      exact ih d prev bstart i (i + 1) h hk
    · rw [blocksLoopD, if_neg hx] at h
      obtain ⟨d2, hd2, hrec⟩ := Option.bind_eq_some.mp h
      have hp : ¬ prev = k := by
        intro hc
        have hs : (dlookup d prev).isSome :=
          (dictAppend_isSome d prev (bstart, bend)).mp (by rw [hd2]; rfl)
        rw [hc, hk] at hs
        simp at hs
      rw [blocksLoop, if_neg hx, List.filter_cons]
      have hk2 : dlookup d2 k = none := by
        rw [dlookup_dictAppend _ _ _ _ hd2, if_neg hp]
        exact hk
      have := ih d2 x i i (i + 1) hrec hk2
      simpa [hp] using this

lemma blocksLoopD_isSome (rest : List String) (d : List (String × List (Nat × Nat)))
    (prev : String) (bstart bend i : Nat)
    (hall : ∀ l ∈ rest, (dlookup d l).isSome) (hprev : (dlookup d prev).isSome) :
    (blocksLoopD rest d prev bstart bend i).isSome := by
  induction rest generalizing d prev bstart bend i with
  | nil =>
    rw [blocksLoopD, if_pos hprev]
    exact (dictAppend_isSome d prev _).mpr hprev
  | cons x r ih =>
    by_cases hx : x = prev
    · rw [blocksLoopD, if_pos hx]
      exact ih d prev bstart i (i + 1) (fun l hl => hall l (List.mem_cons_of_mem _ hl)) hprev
    · rw [blocksLoopD, if_neg hx]
      have h2 : (dictAppend d prev (bstart, bend)).isSome :=
        (dictAppend_isSome _ _ _).mpr hprev
      obtain ⟨d2, hd2⟩ := Option.isSome_iff_exists.mp h2
      rw [hd2, Option.some_bind]
      have hkeys : ∀ l, (dlookup d l).isSome → (dlookup d2 l).isSome := by
        intro l hl
        rw [dlookup_dictAppend _ _ _ _ hd2]
        by_cases hpl : prev = l
        · rw [if_pos hpl]
          simp [← hpl, Option.isSome_map]
          rwa [← hpl] at hl
        · rwa [if_neg hpl]
      exact ih d2 x i i (i + 1)
        (fun l hl => hkeys l (hall l (List.mem_cons_of_mem _ hl)))
        (hkeys x (hall x (List.mem_cons_self _ _)))

lemma blocksLoop_labels (rest : List String) (prev : String) (bstart bend i : Nat) :
    ∀ b ∈ blocksLoop rest prev bstart bend i, b.1 ∈ prev :: rest := by
  induction rest generalizing prev bstart bend i with
  | nil =>
    intro b hb
    simp only [blocksLoop, List.mem_singleton] at hb
    subst hb
    simp
  | cons x r ih =>
    intro b hb
    by_cases h : x = prev
    · rw [blocksLoop, if_pos h] at hb
      rcases List.mem_cons.mp (ih prev bstart i (i + 1) b hb) with h1 | h1
      · exact h1 ▸ List.mem_cons_self _ _
      · exact List.mem_cons_of_mem _ (List.mem_cons_of_mem _ h1)
    · rw [blocksLoop, if_neg h] at hb
      rcases List.mem_cons.mp hb with rfl | hb
      · exact List.mem_cons_self _ _
      · rcases List.mem_cons.mp (ih x i i (i + 1) b hb) with h1 | h1
        · exact List.mem_cons_of_mem _ (h1 ▸ List.mem_cons_self _ _)
        · exact List.mem_cons_of_mem _ (List.mem_cons_of_mem _ h1)

lemma dlookup_initDict (states : List String) (d : List (String × List (Nat × Nat)))
    (k : String) :
    dlookup (states.foldl (fun d s => dictSet d s ([] : List (Nat × Nat))) d) k =
      if k ∈ states then some [] else dlookup d k := by
  induction states generalizing d with
  | nil => simp
  | cons s ss ih =>
    rw [List.foldl_cons, ih]
    by_cases h : k ∈ ss
    · simp [h]
    · rw [dlookup_dictSet]
      by_cases h2 : s = k
      · simp [h, h2, List.mem_cons]
      · have h3 : ¬ k ∈ s :: ss := by
          simp only [List.mem_cons]
          rintro (hc | hc)
          · exact h2 hc.symm
          · exact h hc
        simp [h, h2, h3]

/-- Claim C1: whenever `Predictor.convert_to_blocks` returns on a state-label
sequence (the source raises `IndexError` on an empty sequence and `KeyError`
when a non-final run's label is not a key of the seeded dict, both modelled
by `none`), the returned blocks, taken in index order across all states
(`convert_to_blocks_list`), concatenate back to the original per-site
sequence, each block's label repeated `end - start + 1` times; the ranges
are strictly increasing and disjoint, adjacent blocks carry different labels
(so each range is a maximal run of one label), and each state's entry of the
returned dict is exactly the index-ordered block list restricted to that
state. -/
theorem convert_to_blocks_roundtrip (states state_seq : List String)
    (d : List (String × List (Nat × Nat)))
    (h : convert_to_blocks states state_seq = some d) :
    ∃ bl, convert_to_blocks_list state_seq = some bl ∧
      blockFlat bl = state_seq ∧
      List.Pairwise (fun a b => a.2.2 < b.2.1) bl ∧
      List.Chain' (fun a b => a.1 ≠ b.1) bl ∧
      ∀ s bs, dlookup d s = some bs →
        bs = (bl.filter (fun b => b.1 = s)).map (fun b => b.2) := by
  cases state_seq with
  | nil => simp [convert_to_blocks] at h
  | cons s0 rest =>
    rw [convert_to_blocks] at h
    refine ⟨blocksLoop rest s0 0 0 1, rfl, ?_,
      blocksLoop_pairwise rest s0 0 0 1 rfl (le_refl 0),
      blocksLoop_chain rest s0 0 0 1, ?_⟩
    · simpa using blocksLoop_flat rest s0 0 0 1 rfl (le_refl 0)
    · intro s bs hbs
      cases hdl : dlookup (states.foldl (fun d s => dictSet d s []) ([] : List (String × List (Nat × Nat)))) s with
      | none =>
        rcases blocksLoopD_lookup_none rest _ s0 0 0 1 d h s hdl with hnone | hsome
        · rw [hbs] at hnone
          cases hnone
        · rw [hbs] at hsome
          exact Option.some.inj hsome
      | some v =>
        have hv : v = [] := by
          have h2 := dlookup_initDict states [] s
          rw [hdl] at h2
          by_cases hm : s ∈ states
          · rw [if_pos hm] at h2
            exact Option.some.inj h2
          · rw [if_neg hm] at h2
            cases h2
        have h3 := blocksLoopD_lookup rest _ s0 0 0 1 d h s v hdl
        rw [hbs, hv] at h3
        simpa using Option.some.inj h3

/-- Witness for claim C1 at a concrete three-site sequence. -/
theorem convert_to_blocks_roundtrip_witness :
    ∃ bl, convert_to_blocks_list ["cer", "cer", "par"] = some bl ∧
      blockFlat bl = ["cer", "cer", "par"] ∧
      List.Pairwise (fun a b => a.2.2 < b.2.1) bl ∧
      List.Chain' (fun a b => a.1 ≠ b.1) bl ∧
      ∀ s bs, dlookup [("cer", [(0, 1)]), ("par", [(2, 2)])] s = some bs →
        bs = (bl.filter (fun b => b.1 = s)).map (fun b => b.2) :=
  convert_to_blocks_roundtrip ["cer", "par"] ["cer", "cer", "par"]
    [("cer", [(0, 1)]), ("par", [(2, 2)])] (by decide)

/-- Claim C2 counterexample: on an empty state-label sequence
`Predictor.convert_to_blocks` does not return an empty block list for every
state — `state_seq[0]` raises `IndexError`, modelled by `none`. -/
theorem convert_to_blocks_empty_counterexample :
    convert_to_blocks ["cer", "par"] ([] : List String) = none := rfl

/-- Claim C2 (amended): an empty state-label sequence makes
`Predictor.convert_to_blocks` raise (`none`), and an empty coded sequence
likewise makes `HMM_Builder.poly_sites` raise at `sequences[0]`, so the
pipeline does not deliver the zero-blocks result without error; a single-site
sequence produces exactly one block `(0, 0)` carrying that site's label,
with an empty block list for every other state of the state list. -/
theorem convert_to_blocks_empty_single (states : List String) (s : String)
    (sym : Symbols) (positions : List Nat) :
    convert_to_blocks states ([] : List String) = none ∧
    poly_sites sym ([] : List (List Char)) positions = none ∧
    ∃ d, convert_to_blocks states [s] = some d ∧
      dlookup d s = some [(0, 0)] ∧
      ∀ s', s' ≠ s → dlookup d s' = (if s' ∈ states then some [] else none) := by
  refine ⟨rfl, rfl, ?_⟩
  rw [convert_to_blocks]
  have hd0 := dlookup_initDict states
    ([] : List (String × List (Nat × Nat))) s
  by_cases hm : s ∈ states
  · rw [if_pos hm] at hd0
    rw [blocksLoopD]
    have hif : (if (dlookup (states.foldl (fun d s => dictSet d s []) ([] : List (String × List (Nat × Nat)))) s).isSome
        then states.foldl (fun d s => dictSet d s []) ([] : List (String × List (Nat × Nat)))
        else states.foldl (fun d s => dictSet d s []) ([] : List (String × List (Nat × Nat))) ++ [(s, [])]) =
        states.foldl (fun d s => dictSet d s []) ([] : List (String × List (Nat × Nat))) := by
      rw [hd0]
      rfl
    rw [hif]
    have hsome : (dictAppend (states.foldl (fun d s => dictSet d s []) ([] : List (String × List (Nat × Nat))))
        s ((0 : Nat), (0 : Nat))).isSome :=
      (dictAppend_isSome _ _ _).mpr (by rw [hd0]; rfl)
    obtain ⟨d, hd⟩ := Option.isSome_iff_exists.mp hsome
    refine ⟨d, hd, ?_, ?_⟩
    · rw [dlookup_dictAppend _ _ _ _ hd, if_pos rfl, hd0]
      rfl
    · intro s' hs'
      rw [dlookup_dictAppend _ _ _ _ hd, if_neg (fun hc => hs' hc.symm)]
      simpa [dlookup] using dlookup_initDict states
        ([] : List (String × List (Nat × Nat))) s'
  · rw [if_neg hm] at hd0
    rw [blocksLoopD]
    have hif : (if (dlookup (states.foldl (fun d s => dictSet d s []) ([] : List (String × List (Nat × Nat)))) s).isSome
        then states.foldl (fun d s => dictSet d s []) ([] : List (String × List (Nat × Nat)))
        else states.foldl (fun d s => dictSet d s []) ([] : List (String × List (Nat × Nat))) ++ [(s, [])]) =
        states.foldl (fun d s => dictSet d s []) ([] : List (String × List (Nat × Nat))) ++ [(s, [])] := by
      rw [hd0]
      rfl
    rw [hif]
    have hkey : dlookup (states.foldl (fun d s => dictSet d s []) ([] : List (String × List (Nat × Nat))) ++ [(s, [])]) s =
        some [] := by
      rw [dlookup_append_none _ _ _ hd0]
      simp [dlookup]
    have hsome : (dictAppend (states.foldl (fun d s => dictSet d s []) ([] : List (String × List (Nat × Nat))) ++ [(s, [])])
        s ((0 : Nat), (0 : Nat))).isSome :=
      (dictAppend_isSome _ _ _).mpr (by rw [hkey]; rfl)
    obtain ⟨d, hd⟩ := Option.isSome_iff_exists.mp hsome
    refine ⟨d, hd, ?_, ?_⟩
    · rw [dlookup_dictAppend _ _ _ _ hd, if_pos rfl, hkey]
      rfl
    · intro s' hs'
      rw [dlookup_dictAppend _ _ _ _ hd, if_neg (fun hc => hs' hc.symm)]
      have hd0' := dlookup_initDict states
        ([] : List (String × List (Nat × Nat))) s'
      rw [dlookup] at hd0'
      have hss' : ¬ s = s' := fun hc => hs' hc.symm
      cases hdl' : dlookup (states.foldl (fun d s => dictSet d s []) ([] : List (String × List (Nat × Nat)))) s' with
      | none =>
        rw [dlookup_append_none _ _ _ hdl', ← hd0', hdl']
        simp [dlookup, hss']
      | some v =>
        rw [dlookup_append_some _ _ _ _ hdl', ← hd0', hdl']

/-- Witness for the amended claim C2 at concrete states. -/
theorem convert_to_blocks_empty_single_witness :
    convert_to_blocks ["cer", "par"] ([] : List String) = none ∧
    poly_sites defaultSymbols ([] : List (List Char)) [] = none ∧
    ∃ d, convert_to_blocks ["cer", "par"] ["par"] = some d ∧
      dlookup d "par" = some [(0, 0)] ∧
      ∀ s', s' ≠ "par" → dlookup d s' = (if s' ∈ ["cer", "par"] then some [] else none) :=
  convert_to_blocks_empty_single ["cer", "par"] "par" defaultSymbols []

/-- Claim C10: on a non-empty sequence whose labels all occur in the state
list, `Predictor.convert_to_blocks` succeeds, its dict has an entry for
every state of the state list — an empty list for states that never occur
in the sequence — every block satisfies `start ≤ end < length`, and each
state's blocks are strictly increasing and non-overlapping (each block ends
before the next one starts). -/
theorem convert_to_blocks_invariants (states state_seq : List String)
    (hne : state_seq ≠ []) (hall : ∀ l ∈ state_seq, l ∈ states) :
    ∃ d, convert_to_blocks states state_seq = some d ∧
      (∀ s ∈ states, ∃ bs, dlookup d s = some bs) ∧
      (∀ s ∈ states, ¬ s ∈ state_seq → dlookup d s = some []) ∧
      (∀ s bs, dlookup d s = some bs →
        (∀ b ∈ bs, b.1 ≤ b.2 ∧ b.2 < state_seq.length) ∧
        List.Pairwise (fun a b => a.2 < b.1) bs) := by
  cases state_seq with
  | nil => exact absurd rfl hne
  | cons s0 rest =>
    rw [convert_to_blocks]
    have hd0 : ∀ l ∈ s0 :: rest,
        (dlookup (states.foldl (fun d s => dictSet d s []) ([] : List (String × List (Nat × Nat)))) l).isSome := by
      intro l hl
      rw [dlookup_initDict states ([] : List (String × List (Nat × Nat))) l,
        if_pos (hall l hl)]
      rfl
    have hsome := blocksLoopD_isSome rest _ s0 0 0 1
      (fun l hl => hd0 l (List.mem_cons_of_mem _ hl)) (hd0 s0 (List.mem_cons_self _ _))
    obtain ⟨d, hd⟩ := Option.isSome_iff_exists.mp hsome
    have hinit : ∀ s ∈ states,
        dlookup (states.foldl (fun d s => dictSet d s []) ([] : List (String × List (Nat × Nat)))) s = some [] := by
      intro s hs
      rw [dlookup_initDict states ([] : List (String × List (Nat × Nat))) s, if_pos hs]
    refine ⟨d, hd, ?_, ?_, ?_⟩
    · intro s hs
      exact ⟨_, blocksLoopD_lookup rest _ s0 0 0 1 d hd s [] (hinit s hs)⟩
    · intro s hs hnotin
      have hlk := blocksLoopD_lookup rest _ s0 0 0 1 d hd s [] (hinit s hs)
      have hfil : (blocksLoop rest s0 0 0 1).filter (fun b => b.1 = s) = [] := by
        rw [List.filter_eq_nil_iff]
        intro b hb
        have hlab := blocksLoop_labels rest s0 0 0 1 b hb
        simp only [decide_eq_true_eq]
        intro hc
        exact hnotin (hc ▸ hlab)
      rw [hlk, hfil]
      rfl
    · intro s bs hbs
      have hfilter : bs = ((blocksLoop rest s0 0 0 1).filter
          (fun b => b.1 = s)).map (fun b => b.2) := by
        cases hdl : dlookup (states.foldl (fun d s => dictSet d s []) ([] : List (String × List (Nat × Nat)))) s with
        | none =>
          rcases blocksLoopD_lookup_none rest _ s0 0 0 1 d hd s hdl with hnone | hsome'
          · rw [hbs] at hnone
            cases hnone
          · rw [hbs] at hsome'
            exact Option.some.inj hsome'
        | some v =>
          have hv : v = [] := by
            have h2 := dlookup_initDict states [] s
            rw [hdl] at h2
            by_cases hm : s ∈ states
            · rw [if_pos hm] at h2
              exact Option.some.inj h2
            · rw [if_neg hm] at h2
              cases h2
          have h3 := blocksLoopD_lookup rest _ s0 0 0 1 d hd s v hdl
          rw [hbs, hv] at h3
          simpa using Option.some.inj h3
      subst hfilter
      constructor
      · intro b hb
        simp only [List.mem_map, List.mem_filter] at hb
        obtain ⟨b0, ⟨hb0, _⟩, rfl⟩ := hb
        have h4 := blocksLoop_bounds rest s0 0 0 1 rfl (le_refl 0) b0 hb0
        refine ⟨h4.2.1, ?_⟩
        have h5 := h4.2.2
        simp only [List.length_cons]
        omega
      · have hpw := blocksLoop_pairwise rest s0 0 0 1 rfl (le_refl 0)
        have hsub := (List.filter_sublist (blocksLoop rest s0 0 0 1)
          (p := fun b => decide (b.1 = s)))
        have hpw2 := hpw.sublist hsub
        exact (List.pairwise_map).mpr hpw2

lemma filter_range_getD_eq (p q : Nat → Bool) (hpq : ∀ c, p c = true → q c = true) (n : Nat) :
    (List.range ((List.range n).filter q).length).filter
        (fun k => p (((List.range n).filter q).getD k 0)) =
      ((List.range n).filter p).map (fun c => ((List.range c).filter q).length) := by
  induction n with
  | zero => simp
  | succ m ih =>
    by_cases hq : q m = true
    · have hB : (List.range (m + 1)).filter q = (List.range m).filter q ++ [m] := by
        rw [List.range_succ, List.filter_append]
        simp [hq]
      have hc : ∀ k ∈ List.range ((List.range m).filter q).length,
          (p (((List.range m).filter q ++ [m]).getD k 0)) =
          (p (((List.range m).filter q).getD k 0)) := by
        intro k hk
        rw [List.getD_append _ _ _ k (List.mem_range.mp hk)]
      have hd : ((List.range m).filter q ++ [m]).getD ((List.range m).filter q).length 0
          = m := by
        rw [List.getD_append_right _ _ _ _ (le_refl _)]
        simp
      by_cases hp : p m = true
      · have hA : (List.range (m + 1)).filter p = (List.range m).filter p ++ [m] := by
          rw [List.range_succ, List.filter_append]
          simp [hp]
        rw [hB, hA, List.length_append]
        simp only [List.length_cons, List.length_nil]
        rw [List.range_succ, List.filter_append, List.map_append, List.filter_congr hc, ih]
        congr 1
        simp [hd, hp, hB]
      · have hA : (List.range (m + 1)).filter p = (List.range m).filter p := by
          rw [List.range_succ, List.filter_append]
          simp [hp]
        rw [hB, hA, List.length_append]
        simp only [List.length_cons, List.length_nil]
        rw [List.range_succ, List.filter_append, List.filter_congr hc, ih]
        simp [hd, hp]
    · have hp : ¬ p m = true := fun hc => hq (hpq m hc)
      have hB : (List.range (m + 1)).filter q = (List.range m).filter q := by
        rw [List.range_succ, List.filter_append]
        simp [hq]
      have hA : (List.range (m + 1)).filter p = (List.range m).filter p := by
        rw [List.range_succ, List.filter_append]
        simp [hp]
      rw [hB, hA, ih]

lemma columnValid_indexRefBase (sym : Symbols) (predict_seq : List Char)
    (ref_seqs : List (List Char)) (index_ref : Nat) (href : index_ref < ref_seqs.length)
    (c : Nat) (hc : columnValid sym predict_seq ref_seqs c = true) :
    indexRefBase sym ref_seqs index_ref c = true := by
  rw [columnValid, Bool.and_eq_true] at hc
  have hmem : ref_seqs.getD index_ref [] ∈ ref_seqs := by
    rw [List.getD_eq_getElem?_getD, List.getElem?_eq_getElem href]
    exact List.getElem_mem href
  have hval := List.all_eq_true.mp hc.2 _ hmem
  rw [isValidChar, Bool.and_eq_true, decide_eq_true_eq, decide_eq_true_eq] at hval
  rw [indexRefBase, decide_eq_true_eq]
  exact hval.1

lemma ungap_positions_eq (sym : Symbols) (predict_seq : List Char)
    (ref_seqs : List (List Char)) (index_ref : Nat)
    (href : index_ref < ref_seqs.length) :
    (ungap_and_code sym predict_seq ref_seqs index_ref).2 =
      ((List.range predict_seq.length).filter (columnValid sym predict_seq ref_seqs)).map
        (fun c => ((List.range c).filter (indexRefBase sym ref_seqs index_ref)).length) := by
  simp only [ungap_and_code]
  exact filter_range_getD_eq (columnValid sym predict_seq ref_seqs)
    (indexRefBase sym ref_seqs index_ref)
    (columnValid_indexRefBase sym predict_seq ref_seqs index_ref href)
    predict_seq.length

lemma ungap_symbol_length (sym : Symbols) (predict_seq : List Char)
    (ref_seqs : List (List Char)) (index_ref : Nat) :
    ∀ x ∈ (ungap_and_code sym predict_seq ref_seqs index_ref).1,
      x.length = ref_seqs.length := by
  intro x hx
  simp only [ungap_and_code, List.mem_map] at hx
  obtain ⟨c, _, rfl⟩ := hx
  simp [codeColumn]

lemma zip_map_fst_snd_eq {α β : Type} (l : List (α × β)) :
    (l.map Prod.fst).zip (l.map Prod.snd) = l := by
  rw [List.zip_map']
  simp

/-- Claim C4: `ungap_and_code` retains an alignment column exactly when the
predicted sequence and every reference are non-gap and non-unsequenced
there; each retained column is coded as the concatenation, in reference
order, of match/mismatch symbols against the predicted base; and each
retained column's reported position is its index in the index reference's
own coordinate numbering — the count of the index reference's non-gap
(gap-determined) columns before it. -/
theorem ungap_and_code_spec (sym : Symbols) (predict_seq : List Char)
    (ref_seqs : List (List Char)) (index_ref : Nat)
    (href : index_ref < ref_seqs.length)
    (hlen : ∀ r ∈ ref_seqs, r.length = predict_seq.length) :
    (ungap_and_code sym predict_seq ref_seqs index_ref).1 =
      ((List.range predict_seq.length).filter (fun c =>
          isValidChar sym (predict_seq.getD c sym.gapSym) &&
            ref_seqs.all (fun r => isValidChar sym (r.getD c sym.gapSym)))).map
        (fun c => ref_seqs.map (fun r =>
          if r.getD c sym.gapSym = predict_seq.getD c sym.gapSym
          then sym.matchSym else sym.mismatchSym)) ∧
    (ungap_and_code sym predict_seq ref_seqs index_ref).2 =
      ((List.range predict_seq.length).filter (columnValid sym predict_seq ref_seqs)).map
        (fun c => ((List.range c).filter (fun c' =>
          decide ((ref_seqs.getD index_ref []).getD c' sym.gapSym ≠ sym.gapSym))).length) :=
  ⟨rfl, ungap_positions_eq sym predict_seq ref_seqs index_ref href⟩

/-- Witness for claim C4: the reported positions on a small alignment where
the index reference has an invalid (unsequenced) column that still counts in
its non-gap numbering. -/
theorem ungap_and_code_spec_witness :
    (ungap_and_code defaultSymbols ['A', 'T', '-', 'C']
      [['A', 'T', 'n', 'C'], ['A', '-', 'T', 'C']] 0).2 = [0, 3] := by
  have h := ungap_and_code_spec defaultSymbols ['A', 'T', '-', 'C']
    [['A', 'T', 'n', 'C'], ['A', '-', 'T', 'C']] 0 (by decide) (by decide)
  rw [h.2]
  decide

/-- Claim C3: after encoding, the coded sequence and the positions array have
equal length; when the polymorphism filter returns, it preserves that
equality, no retained symbol is the all-match symbol (the string of
`len(ref_seqs)` match symbols), and the retained (symbol, position) pairs
form a sublist of the original pairs — relative order and one-to-one
correspondence are preserved. -/
theorem coded_positions_length_eq (sym : Symbols) (predict_seq : List Char)
    (ref_seqs : List (List Char)) (index_ref : Nat) (cs' : List (List Char)) (ps' : List Nat)
    (href : index_ref < ref_seqs.length)
    (hlen : ∀ r ∈ ref_seqs, r.length = predict_seq.length) :
    (ungap_and_code sym predict_seq ref_seqs index_ref).1.length =
      (ungap_and_code sym predict_seq ref_seqs index_ref).2.length ∧
    (poly_sites sym (ungap_and_code sym predict_seq ref_seqs index_ref).1
        (ungap_and_code sym predict_seq ref_seqs index_ref).2 = some (cs', ps') →
      cs'.length = ps'.length ∧
      (∀ x ∈ cs', x ≠ List.replicate ref_seqs.length sym.matchSym) ∧
      (cs'.zip ps').Sublist
        ((ungap_and_code sym predict_seq ref_seqs index_ref).1.zip
          (ungap_and_code sym predict_seq ref_seqs index_ref).2)) := by
  constructor
  · rw [ungap_positions_eq sym predict_seq ref_seqs index_ref href]
    simp [ungap_and_code]
  · intro hpoly
    have hsyml := ungap_symbol_length sym predict_seq ref_seqs index_ref
    cases hcs : (ungap_and_code sym predict_seq ref_seqs index_ref).1 with
    | nil =>
      rw [hcs, poly_sites] at hpoly
      cases hpoly
    | cons s0 srest =>
      rw [hcs, poly_sites] at hpoly
      obtain ⟨hcs', hps'⟩ := Prod.mk.injEq _ _ _ _ ▸ Option.some.inj hpoly
      have hs0len : s0.length = ref_seqs.length := hsyml s0 (hcs ▸ List.mem_cons_self s0 srest)
      refine ⟨?_, ?_, ?_⟩
      · rw [← hcs', ← hps']
        simp
      · intro x hx
        rw [← hcs'] at hx
        simp only [List.mem_map] at hx
        obtain ⟨sp, hsp, rfl⟩ := hx
        rw [List.mem_filter] at hsp
        have hcount := hsp.2
        rw [decide_eq_true_eq] at hcount
        intro hrep
        rw [hrep] at hcount
        apply hcount
        rw [hs0len]
        simp [List.count_replicate]
      · rw [← hcs', ← hps', zip_map_fst_snd_eq, ← hcs]
        exact List.Sublist.trans (List.filter_sublist _) (by rw [hcs])

/-- Witness for claim C3 on a one-reference alignment with one polymorphic
site. -/
theorem coded_positions_length_eq_witness :
    (ungap_and_code defaultSymbols ['A', 'C'] [['A', 'A']] 0).1.length =
      (ungap_and_code defaultSymbols ['A', 'C'] [['A', 'A']] 0).2.length ∧
    ([['-']] : List (List Char)).length = ([1] : List Nat).length ∧
    (∀ x ∈ ([['-']] : List (List Char)),
      x ≠ List.replicate ([['A', 'A']] : List (List Char)).length defaultSymbols.matchSym) ∧
    (([['-']] : List (List Char)).zip ([1] : List Nat)).Sublist
      ((ungap_and_code defaultSymbols ['A', 'C'] [['A', 'A']] 0).1.zip
        (ungap_and_code defaultSymbols ['A', 'C'] [['A', 'A']] 0).2) := by
  have h := coded_positions_length_eq defaultSymbols ['A', 'C'] [['A', 'A']] 0 [['-']] [1]
    (by decide) (by decide)
  have h2 := h.2 (by decide)
  exact ⟨h.1, h2.1, h2.2.1, h2.2.2⟩

/-- Witness for claim C10 at a concrete sequence whose state list includes a
state that never occurs (bay), whose entry must be the empty list. -/
theorem convert_to_blocks_invariants_witness :
    ∃ d, convert_to_blocks ["cer", "par", "bay"] ["cer", "par", "par"] = some d ∧
      (∀ s ∈ ["cer", "par", "bay"], ∃ bs, dlookup d s = some bs) ∧
      (∀ s ∈ ["cer", "par", "bay"], ¬ s ∈ ["cer", "par", "par"] →
        dlookup d s = some []) ∧
      (∀ s bs, dlookup d s = some bs →
        (∀ b ∈ bs, b.1 ≤ b.2 ∧ b.2 < (["cer", "par", "par"] : List String).length) ∧
        List.Pairwise (fun a b => a.2 < b.1) bs) :=
  convert_to_blocks_invariants ["cer", "par", "bay"] ["cer", "par", "par"]
    (by decide) (by decide)

lemma getD_map_range {α : Type} (n : Nat) (f : Nat → α) (i : Nat) (h : i < n) (d : α) :
    ((List.range n).map f).getD i d = f i := by
  rw [List.getD_eq_getElem?_getD, List.getElem?_map, List.getElem?_range h]
  rfl

lemma getD_map_of_lt {α β : Type} (l : List α) (f : α → β) (i : Nat) (h : i < l.length)
    (d : α) (d' : β) : (l.map f).getD i d' = f (l.getD i d) := by
  rw [List.getD_eq_getElem?_getD, List.getElem?_map, List.getElem?_eq_getElem h,
    List.getD_eq_getElem?_getD, List.getElem?_eq_getElem h]
  rfl

lemma sum_map_div (l : List ℚ) (c : ℚ) : (l.map (fun x => x / c)).sum = l.sum / c := by
  induction l with
  | nil => simp
  | cons x xs ih => simp [ih, add_div]

lemma transition_row_eq (b : Builder) (i : Nat)
    (hi : i < (b.known_states ++ b.unknown_states).length) :
    (transition_probabilities b).getD i [] =
      ((List.range (b.known_states ++ b.unknown_states).length).map (claimC5_pre b i)).map
        (fun x => x / claimC5_rowsum b i) := by
  have hent : (List.range (b.known_states ++ b.unknown_states).length).map (fun j =>
      if i = j
      then 1 - ((b.known_states ++ b.unknown_states).map
        (fun s => 1 / dictGet b.expected_lengths s)).getD i 0
      else ((b.known_states ++ b.unknown_states).map
          (fun s => 1 / dictGet b.expected_lengths s)).getD i 0 *
        (1 / (1 - ((b.known_states ++ b.unknown_states).map
          (fun s => dictGet b.expected_fractions s)).getD i 0)) *
        ((b.known_states ++ b.unknown_states).map
          (fun s => dictGet b.expected_fractions s)).getD j 0) =
      (List.range (b.known_states ++ b.unknown_states).length).map (claimC5_pre b i) := by
    apply List.map_congr_left
    intro j hj
    rw [List.mem_range] at hj
    have hL := getD_map_of_lt (b.known_states ++ b.unknown_states)
      (fun s => 1 / dictGet b.expected_lengths s) i hi "" 0
    have hFi := getD_map_of_lt (b.known_states ++ b.unknown_states)
      (fun s => dictGet b.expected_fractions s) i hi "" 0
    have hFj := getD_map_of_lt (b.known_states ++ b.unknown_states)
      (fun s => dictGet b.expected_fractions s) j hj "" 0
    rw [hL, hFi, hFj]
    simp only [claimC5_pre]
    by_cases hij : i = j
    · rw [if_pos hij, if_pos hij]
    · rw [if_neg hij, if_neg hij]
      ring
  rw [transition_probabilities]
  simp only [List.map_map]
  rw [getD_map_range _ _ i hi]
  simp only [Function.comp]
  rw [hent, List.map_map]
  rfl

/-- Claim C5: the matrix returned by `transition_probabilities` is, row by
row, the pre-normalization matrix with off-diagonal entry
`(1 / expected_length[i]) * (expected_fraction[j] / (1 - expected_fraction[i]))`
and diagonal `1 - 1 / expected_length[i]`, divided by the row's sum; in
exact arithmetic every returned row whose pre-normalization sum is nonzero
sums to exactly 1 (hence to 1 within the spec's floating-point tolerance). -/
theorem transition_probabilities_spec (b : Builder) (i : Nat)
    (hi : i < (b.known_states ++ b.unknown_states).length) :
    (∀ j, j < (b.known_states ++ b.unknown_states).length →
      ((transition_probabilities b).getD i []).getD j 0 =
        claimC5_pre b i j / claimC5_rowsum b i) ∧
    (claimC5_rowsum b i ≠ 0 → ((transition_probabilities b).getD i []).sum = 1) := by
  constructor
  · intro j hj
    rw [transition_row_eq b i hi, List.map_map, getD_map_range _ _ j hj]
    rfl
  · intro hS
    rw [transition_row_eq b i hi, sum_map_div]
    exact div_self hS

/-- Witness for claim C5 on the concrete two-state builder. -/
theorem transition_probabilities_spec_witness :
    ((transition_probabilities builderC5ex).getD 0 []).getD 1 0 =
      claimC5_pre builderC5ex 0 1 / claimC5_rowsum builderC5ex 0 ∧
    ((transition_probabilities builderC5ex).getD 0 []).sum = 1 := by
  have h := transition_probabilities_spec builderC5ex 0 (by decide)
  refine ⟨h.1 1 (by decide), h.2 ?_⟩
  have hne : ("A" : String) ≠ "U" := by decide
  norm_num [claimC5_rowsum, claimC5_pre, builderC5ex, dictGet, dlookup, List.range_succ, hne]

lemma dictSet_of_lookup_none {α β : Type} [DecidableEq α] (d : List (α × β)) (k : α) (v : β)
    (h : dlookup d k = none) : dictSet d k v = d ++ [(k, v)] := by
  induction d with
  | nil => rfl
  | cons p rest ih =>
    obtain ⟨k0, v0⟩ := p
    rw [dlookup] at h
    by_cases h0 : k0 = k
    · rw [if_pos h0] at h
      cases h
    · rw [if_neg h0] at h
      rw [dictSet, if_neg h0, ih h]
      simp

lemma foldl_dictSet_fresh (ss : List StateConfig) (f : StateConfig → ℚ)
    (d : List (String × ℚ))
    (h : ∀ s ∈ ss, dlookup d s.name = none)
    (hnd : (ss.map (fun s => s.name)).Nodup) :
    ss.foldl (fun d s => dictSet d s.name (f s)) d =
      d ++ ss.map (fun s => (s.name, f s)) := by
  induction ss generalizing d with
  | nil => simp
  | cons s rest ih =>
    rw [List.foldl_cons, dictSet_of_lookup_none d s.name (f s) (h s (List.mem_cons_self _ _))]
    rw [List.map_cons, List.nodup_cons] at hnd
    have hfresh : ∀ s' ∈ rest, dlookup (d ++ [(s.name, f s)]) s'.name = none := by
      intro s' hs'
      rw [dlookup_append_none _ _ _ (h s' (List.mem_cons_of_mem _ hs')), dlookup]
      have hns : ¬ s.name = s'.name := by
        intro hc
        apply hnd.1
        rw [hc]
        exact List.mem_map_of_mem _ hs'
      rw [if_neg hns]
      rfl
    rw [ih (d ++ [(s.name, f s)]) hfresh hnd.2]
    simp

lemma dlookup_map_pairs_of_mem (ss : List StateConfig) (f : StateConfig → ℚ)
    (s : StateConfig) (hs : s ∈ ss) (hnd : (ss.map (fun s => s.name)).Nodup) :
    dlookup (ss.map (fun s => (s.name, f s))) s.name = some (f s) := by
  induction ss with
  | nil => cases hs
  | cons s0 rest ih =>
    rw [List.map_cons, List.nodup_cons] at hnd
    rw [List.map_cons, dlookup]
    rcases List.mem_cons.mp hs with rfl | hs'
    · rw [if_pos rfl]
    · by_cases h0 : s0.name = s.name
      · exfalso
        apply hnd.1
        rw [h0]
        exact List.mem_map_of_mem _ hs'
      · rw [if_neg h0]
        exact ih hs' hnd.2

lemma dlookup_map_pairs_of_not_mem (ss : List StateConfig) (f : StateConfig → ℚ)
    (k : String) (hk : ¬ k ∈ ss.map (fun s => s.name)) :
    dlookup (ss.map (fun s => (s.name, f s))) k = none := by
  induction ss with
  | nil => rfl
  | cons s0 rest ih =>
    rw [List.map_cons, List.mem_cons] at hk
    rw [List.map_cons, dlookup, if_neg (fun hc => hk (Or.inl hc.symm))]
    exact ih (fun hc => hk (Or.inr hc))

/-- Claim C6 counterexample: on `cfgC6ex` (one non-reference known state,
one unknown state) with total length 100 the code stores 45 for the
reference state's expected tract length, while the claim's formula — its
denominator sum ranging over all non-baseline states, unknown included —
gives 15. -/
theorem update_expected_length_counterexample :
    dictGet (update_expected_length (set_expected_values cfgC6ex) 100).expected_lengths
        "R" = 45 ∧
    claimC6_expected_length cfgC6ex 100 = 15 ∧
    (45 : ℚ) ≠ 15 := by
  have h1 : ("U" : String) ≠ "K" := by decide
  have h2 : ("R" : String) ≠ "K" := by decide
  have h3 : ("R" : String) ≠ "U" := by decide
  have h4 : ("K" : String) ≠ "R" := by decide
  have h5 : ("K" : String) ≠ "U" := by decide
  have h6 : ("U" : String) ≠ "R" := by decide
  refine ⟨?_, ?_, by norm_num⟩
  · norm_num [update_expected_length, set_expected_values, cfgC6ex, get_states,
      dictGet, dlookup, dictSet, h1, h2, h3, h4, h5, h6]
  · norm_num [claimC6_expected_length, cfgC6ex]

/-- Claim C6 (amended): `update_expected_length` sets the reference state's
expected tract length to `total_length * baseline_fraction /
(total_length * other_sum + 1)`, where `baseline_fraction` is the reference
state's expected fraction (one minus the sum of all configured fractions)
plus the expected fractions of all unknown states, and `other_sum` ranges
over the non-baseline KNOWN states only — unknown states enter through
`baseline_fraction`, not through the denominator sum. -/
theorem update_expected_length_formula (cfg : AnalysisConfig) (T : ℚ)
    (hnd : ((cfg.known_states ++ cfg.unknown_states).map (fun s => s.name)).Nodup)
    (href : ¬ cfg.reference ∈ (cfg.known_states ++ cfg.unknown_states).map (fun s => s.name)) :
    dictGet (update_expected_length (set_expected_values cfg) T).expected_lengths
        cfg.reference =
      T * ((1 - ((cfg.known_states ++ cfg.unknown_states).map
              (fun s => s.expected_fraction)).sum) +
            (cfg.unknown_states.map (fun s => s.expected_fraction)).sum) /
        (T * (cfg.known_states.map
            (fun s => s.expected_fraction / s.expected_length)).sum + 1) := by
  have hfold : ∀ f : StateConfig → ℚ,
      (cfg.known_states ++ cfg.unknown_states).foldl
        (fun d s => dictSet d s.name (f s)) [] =
      (cfg.known_states ++ cfg.unknown_states).map (fun s => (s.name, f s)) := by
    intro f
    rw [foldl_dictSet_fresh (cfg.known_states ++ cfg.unknown_states) f
      ([] : List (String × ℚ)) (fun s _ => rfl) hnd]
    simp
  have hfracs0 : ∀ s ∈ cfg.known_states ++ cfg.unknown_states,
      dlookup (dictSet ((cfg.known_states ++ cfg.unknown_states).map
          (fun s => (s.name, s.expected_fraction)))
        cfg.reference
        (1 - (((cfg.known_states ++ cfg.unknown_states).map
          (fun s => (s.name, s.expected_fraction))).map Prod.snd).sum)) s.name =
      some s.expected_fraction := by
    intro s hs
    rw [dlookup_dictSet]
    have hrs : ¬ cfg.reference = s.name := by
      intro hc
      apply href
      rw [hc]
      exact List.mem_map_of_mem _ hs
    rw [if_neg hrs]
    exact dlookup_map_pairs_of_mem _ _ s hs hnd
  have hfracsref :
      dlookup (dictSet ((cfg.known_states ++ cfg.unknown_states).map
          (fun s => (s.name, s.expected_fraction)))
        cfg.reference
        (1 - (((cfg.known_states ++ cfg.unknown_states).map
          (fun s => (s.name, s.expected_fraction))).map Prod.snd).sum)) cfg.reference =
      some (1 - (((cfg.known_states ++ cfg.unknown_states).map
          (fun s => (s.name, s.expected_fraction))).map Prod.snd).sum) := by
    rw [dlookup_dictSet, if_pos rfl]
  simp only [update_expected_length, set_expected_values, get_states]
  rw [hfold, hfold]
  rw [dictGet, dlookup_dictSet, if_pos rfl, Option.getD_some]
  have hsnd : (((cfg.known_states ++ cfg.unknown_states).map
      (fun s => (s.name, s.expected_fraction))).map Prod.snd) =
      (cfg.known_states ++ cfg.unknown_states).map (fun s => s.expected_fraction) := by
    rw [List.map_map]
    rfl
  have hunk : (cfg.unknown_states.map (fun s => s.name)).map (fun s =>
      dictGet (dictSet ((cfg.known_states ++ cfg.unknown_states).map
          (fun s => (s.name, s.expected_fraction)))
        cfg.reference
        (1 - (((cfg.known_states ++ cfg.unknown_states).map
          (fun s => (s.name, s.expected_fraction))).map Prod.snd).sum)) s) =
      cfg.unknown_states.map (fun s => s.expected_fraction) := by
    rw [List.map_map]
    apply List.map_congr_left
    intro s hs
    simp only [Function.comp]
    rw [dictGet, hfracs0 s (List.mem_append_right _ hs), Option.getD_some]
  have hother : cfg.known_states.map (fun s =>
      dictGet (dictSet ((cfg.known_states ++ cfg.unknown_states).map
          (fun s => (s.name, s.expected_fraction)))
        cfg.reference
        (1 - (((cfg.known_states ++ cfg.unknown_states).map
          (fun s => (s.name, s.expected_fraction))).map Prod.snd).sum)) s.name /
        dictGet ((cfg.known_states ++ cfg.unknown_states).map
          (fun s => (s.name, s.expected_length))) s.name) =
      cfg.known_states.map (fun s => s.expected_fraction / s.expected_length) := by
    apply List.map_congr_left
    intro s hs
    rw [dictGet, hfracs0 s (List.mem_append_left _ hs), Option.getD_some,
      dictGet, dlookup_map_pairs_of_mem _ _ s (List.mem_append_left _ hs) hnd,
      Option.getD_some]
  rw [hunk, hother, dictGet, hfracsref, Option.getD_some, hsnd]

/-- Witness for the amended claim C6 on the concrete configuration. -/
theorem update_expected_length_formula_witness :
    dictGet (update_expected_length (set_expected_values cfgC6ex) 100).expected_lengths
      cfgC6ex.reference = 45 := by
  have h := update_expected_length_formula cfgC6ex 100 (by decide) (by decide)
  rw [h]
  norm_num [cfgC6ex]

/-- Claim C7 counterexample: on `builderC7ex` and the two-site coded sequence
`seqC7ex`, the initial distribution the code computes (empirical estimate =
match count / total match count over all references) differs from the one
the claim describes (empirical estimate = match count / number of sites):
`[47/192, 145/192]` versus `[19/69, 50/69]`. -/
theorem initial_probabilities_counterexample :
    initial_probabilities builderC7ex (weighted_match_freqs defaultSymbols seqC7ex 2) =
      [47/192, 145/192] ∧
    initial_probabilities builderC7ex
        (claimC7_match_site_fractions defaultSymbols seqC7ex 2) =
      [19/69, 50/69] ∧
    ([47/192, 145/192] : List ℚ) ≠ [19/69, 50/69] := by
  have h1 : ("A" : String) ≠ "B" := by decide
  have h2 : ("B" : String) ≠ "A" := by decide
  have hd0 : List.count '+' ['+', '+'] = 2 := by decide
  have hd1 : List.count '+' ['+', '-'] = 1 := by decide
  refine ⟨?_, ?_, by norm_num⟩
  · norm_num [initial_probabilities, weighted_match_freqs, builderC7ex, seqC7ex,
      defaultSymbols, dictGet, dlookup, List.range_succ, h1, h2, hd0, hd1]
  · norm_num [initial_probabilities, claimC7_match_site_fractions, builderC7ex, seqC7ex,
      defaultSymbols, dictGet, dlookup, List.range_succ, h1, h2, hd0, hd1]

/-- Claim C7 (amended): the vector returned by `initial_probabilities` on
the weighted match frequencies of a coded sequence assigns each known state
`0.9 * prior expected fraction + 0.1 * (that reference's match count divided
by the TOTAL match count over all references)` — not divided by the number
of sites — assigns each unknown state its prior fraction, and is the
resulting vector divided by its sum, which makes it sum to exactly 1
whenever that sum is nonzero. -/
theorem initial_probabilities_formula (b : Builder) (sym : Symbols)
    (seq : List (List Char)) :
    initial_probabilities b (weighted_match_freqs sym seq b.known_states.length) =
      (claimC7_init b sym seq).map (fun x => x / (claimC7_init b sym seq).sum) ∧
    ((claimC7_init b sym seq).sum ≠ 0 →
      (initial_probabilities b (weighted_match_freqs sym seq b.known_states.length)).sum
        = 1) := by
  have hinit : (List.range b.known_states.length).map (fun s =>
      dictGet b.expected_fractions (b.known_states.getD s "") * (9/10) +
        (weighted_match_freqs sym seq b.known_states.length).getD s 0 * (1 - 9/10)) ++
      b.unknown_states.map (fun state => dictGet b.expected_fractions state) =
      claimC7_init b sym seq := by
    simp only [claimC7_init]
    congr 1
    apply List.map_congr_left
    intro s hs
    rw [List.mem_range] at hs
    rw [weighted_match_freqs]
    simp only [List.map_map]
    rw [getD_map_range _ _ s hs]
    norm_num
  constructor
  · rw [initial_probabilities]
    rw [hinit]
  · intro h
    rw [initial_probabilities]
    rw [hinit, sum_map_div]
    exact div_self h

/-- Witness for the amended claim C7 on the concrete builder and sequence. -/
theorem initial_probabilities_formula_witness :
    initial_probabilities builderC7ex
        (weighted_match_freqs defaultSymbols seqC7ex builderC7ex.known_states.length) =
      (claimC7_init builderC7ex defaultSymbols seqC7ex).map
        (fun x => x / (claimC7_init builderC7ex defaultSymbols seqC7ex).sum) ∧
    initial_probabilities builderC7ex
        (weighted_match_freqs defaultSymbols seqC7ex builderC7ex.known_states.length) =
      [47/192, 145/192] := by
  have h := initial_probabilities_formula builderC7ex defaultSymbols seqC7ex
  refine ⟨h.1, ?_⟩
  have h1 : ("A" : String) ≠ "B" := by decide
  have h2 : ("B" : String) ≠ "A" := by decide
  have hd0 : List.count '+' ['+', '+'] = 2 := by decide
  have hd1 : List.count '+' ['+', '-'] = 1 := by decide
  rw [h.1]
  norm_num [claimC7_init, builderC7ex, seqC7ex, defaultSymbols, dictGet, dlookup,
    List.range_succ, h1, h2, hd0, hd1]

lemma getD_mem_of_lt {α : Type} (l : List α) (i : Nat) (h : i < l.length) (d : α) :
    l.getD i d ∈ l := by
  rw [List.getD_eq_getElem?_getD, List.getElem?_eq_getElem h]
  exact List.getElem_mem h

lemma headD_mem {α : Type} (l : List α) (h : l ≠ []) (d : α) : l.headD d ∈ l := by
  cases l with
  | nil => exact absurd rfl h
  | cons x xs => exact List.mem_cons_self x xs

lemma dlookup_base_pattern (m mm : Char) (hne : m ≠ mm) (a b : Char)
    (ha : a = m ∨ a = mm) (hb : b = m ∨ b = mm) :
    (dlookup [([mm, m], (9/10 : ℚ)), ([m, m], 9/100), ([mm, mm], 9/1000),
        ([m, mm], 1/1000)] [a, b]).getD 0 =
      (if a = mm ∧ b = m then (9/10 : ℚ)
        else if a = m ∧ b = m then 9/100
        else if a = mm ∧ b = mm then 9/1000
        else 1/1000) := by
  have hne' : mm ≠ m := Ne.symm hne
  rcases ha with rfl | rfl <;> rcases hb with rfl | rfl <;>
    simp [dlookup, hne, hne']

/-- Claim C8: each known state `i` of `emission_probabilities` gets, per
observed symbol, the base-pattern probability (mismatch-then-match 0.9,
match-match 0.09, mismatch-mismatch 0.009, match-mismatch 0.001) of the
symbol's first-reference character combined with its state-`i` character,
scaled by `2 ^ (|known_states| - 2)` and normalized over the observed
symbols; each unknown state gets, per symbol of length `L` with `m` match
characters, `0.01 * m + 0.99 * (L - m)` normalized across all symbols; rows
with nonzero normalizers sum to exactly 1. -/
theorem emission_probabilities_spec (sym : Symbols) (nk nu : Nat)
    (symbols : List (List Char))
    (hmm2 : sym.matchSym ≠ sym.mismatchSym)
    (hlen : ∀ x ∈ symbols, x.length = nk)
    (hchars : ∀ x ∈ symbols, ∀ c ∈ x, c = sym.matchSym ∨ c = sym.mismatchSym)
    (hne : symbols ≠ []) :
    (emission_probabilities sym nk nu symbols).length = nk + nu ∧
    (∀ i, i < nk →
      (emission_probabilities sym nk nu symbols).getD i [] =
        symbols.map (fun x => (x, claimC8_weight sym nk x i /
          (symbols.map (fun y => claimC8_weight sym nk y i)).sum))) ∧
    (∀ j, j < nu →
      (emission_probabilities sym nk nu symbols).getD (nk + j) [] =
        symbols.map (fun x => (x, claimC8_unknown sym nk x /
          (symbols.map (claimC8_unknown sym nk)).sum))) ∧
    (∀ i, i < nk → (symbols.map (fun y => claimC8_weight sym nk y i)).sum ≠ 0 →
      (((emission_probabilities sym nk nu symbols).getD i []).map Prod.snd).sum = 1) ∧
    (∀ j, j < nu → (symbols.map (claimC8_unknown sym nk)).sum ≠ 0 →
      (((emission_probabilities sym nk nu symbols).getD (nk + j) []).map Prod.snd).sum
        = 1) := by
  have hw : ∀ i, i < nk → ∀ x ∈ symbols,
      (2 : ℚ) ^ ((nk : ℤ) - 2) *
        ((dlookup [([sym.mismatchSym, sym.matchSym], (9/10 : ℚ)),
            ([sym.matchSym, sym.matchSym], 9/100),
            ([sym.mismatchSym, sym.mismatchSym], 9/1000),
            ([sym.matchSym, sym.mismatchSym], 1/1000)]
          [x.getD 0 sym.unknownSym, x.getD i sym.unknownSym]).getD 0) =
      claimC8_weight sym nk x i := by
    intro i hi x hx
    have hxlen : x.length = nk := hlen x hx
    have h0 : x.getD 0 sym.unknownSym ∈ x :=
      getD_mem_of_lt x 0 (by omega) sym.unknownSym
    have hi' : x.getD i sym.unknownSym ∈ x :=
      getD_mem_of_lt x i (by omega) sym.unknownSym
    rw [claimC8_weight, claimC8_base,
      dlookup_base_pattern sym.matchSym sym.mismatchSym hmm2 _ _
        (hchars x hx _ h0) (hchars x hx _ hi')]
  have hnm : ∀ x ∈ symbols,
      ((x.count sym.matchSym : ℚ) + (99/100) *
        (((symbols.headD []).length : ℚ) - 2 * (x.count sym.matchSym : ℚ))) =
      claimC8_unknown sym nk x := by
    intro x hx
    have hL : (symbols.headD []).length = nk := hlen _ (headD_mem symbols hne [])
    rw [hL, claimC8_unknown]
    ring
  have hrowA : ∀ i, i < nk →
      (emission_probabilities sym nk nu symbols).getD i [] =
        symbols.map (fun x => (x, claimC8_weight sym nk x i /
          (symbols.map (fun y => claimC8_weight sym nk y i)).sum)) := by
    intro i hi
    rw [emission_probabilities]
    rw [List.getD_append _ _ _ i (by simp [hi])]
    rw [getD_map_range _ _ i hi]
    have hsum : (symbols.map (fun y => (2 : ℚ) ^ ((nk : ℤ) - 2) *
        ((dlookup [([sym.mismatchSym, sym.matchSym], (9/10 : ℚ)),
            ([sym.matchSym, sym.matchSym], 9/100),
            ([sym.mismatchSym, sym.mismatchSym], 9/1000),
            ([sym.matchSym, sym.mismatchSym], 1/1000)]
          [y.getD 0 sym.unknownSym, y.getD i sym.unknownSym]).getD 0))).sum =
        (symbols.map (fun y => claimC8_weight sym nk y i)).sum := by
      congr 1
      exact List.map_congr_left (hw i hi)
    simp only []
    apply List.map_congr_left
    intro x hx
    rw [hw i hi x hx, hsum]
  have hrowB : ∀ j, j < nu →
      (emission_probabilities sym nk nu symbols).getD (nk + j) [] =
        symbols.map (fun x => (x, claimC8_unknown sym nk x /
          (symbols.map (claimC8_unknown sym nk)).sum)) := by
    intro j hj
    rw [emission_probabilities]
    rw [List.getD_append_right _ _ _ (nk + j) (by simp)]
    simp only [List.length_map, List.length_range, Nat.add_sub_cancel_left]
    rw [getD_map_range _ _ j hj]
    have hsum : (symbols.map (fun x =>
        (x.count sym.matchSym : ℚ) + (99/100) *
          (((symbols.headD []).length : ℚ) - 2 * (x.count sym.matchSym : ℚ)))).sum =
        (symbols.map (claimC8_unknown sym nk)).sum := by
      congr 1
      exact List.map_congr_left hnm
    apply List.map_congr_left
    intro x hx
    rw [hnm x hx, hsum]
  refine ⟨?_, hrowA, hrowB, ?_, ?_⟩
  · rw [emission_probabilities]
    simp
  · intro i hi hS
    rw [hrowA i hi, List.map_map]
    have hfac : ((fun p => Prod.snd p) ∘ (fun x => (x, claimC8_weight sym nk x i /
        (symbols.map (fun y => claimC8_weight sym nk y i)).sum))) =
        (fun t => t / (symbols.map (fun y => claimC8_weight sym nk y i)).sum) ∘
          (fun x => claimC8_weight sym nk x i) := rfl
    rw [hfac, ← List.map_map, sum_map_div]
    exact div_self hS
  · intro j hj hS
    rw [hrowB j hj, List.map_map]
    have hfac : ((fun p => Prod.snd p) ∘ (fun x => (x, claimC8_unknown sym nk x /
        (symbols.map (claimC8_unknown sym nk)).sum))) =
        (fun t => t / (symbols.map (claimC8_unknown sym nk)).sum) ∘
          (claimC8_unknown sym nk) := rfl
    rw [hfac, ← List.map_map, sum_map_div]
    exact div_self hS

/-- Witness for claim C8 with two known states, one unknown state and two
observed symbols. -/
theorem emission_probabilities_spec_witness :
    (emission_probabilities defaultSymbols 2 1 [['+', '-'], ['-', '+']]).getD 0 [] =
      [(['+', '-'], 10/11), (['-', '+'], 1/11)] ∧
    (emission_probabilities defaultSymbols 2 1 [['+', '-'], ['-', '+']]).getD 2 [] =
      [(['+', '-'], 1/2), (['-', '+'], 1/2)] ∧
    (((emission_probabilities defaultSymbols 2 1 [['+', '-'], ['-', '+']]).getD 0 []).map
      Prod.snd).sum = 1 := by
  have h := emission_probabilities_spec defaultSymbols 2 1 [['+', '-'], ['-', '+']]
    (by decide) (by decide) (by decide) (by decide)
  have ha : ('+' : Char) ≠ '-' := by decide
  have hb : ('-' : Char) ≠ '+' := by decide
  have hc1 : List.count '+' ['+', '-'] = 1 := by decide
  have hc2 : List.count '+' ['-', '+'] = 1 := by decide
  refine ⟨?_, ?_, ?_⟩
  · rw [h.2.1 0 (by norm_num)]
    norm_num [claimC8_weight, claimC8_base, defaultSymbols, ha, hb]
  · rw [h.2.2.1 0 (by norm_num)]
    norm_num [claimC8_unknown, defaultSymbols, hc1, hc2]
  · exact h.2.2.2.1 0 (by norm_num)
      (by norm_num [claimC8_weight, claimC8_base, defaultSymbols, ha, hb])

/-- Claim C9: `set_threshold` accepts exactly the configured values that
parse as a float (stored as that float) or equal the string viterbi, and
raises `ValueError` (`none`) for every other value; `process_path` applies
max-posterior thresholding with fallback to the baseline (first known)
state exactly when the stored threshold is a float, and otherwise returns
the Viterbi path converted to state labels. -/
theorem set_threshold_process_path_spec :
    (∀ parse_float : String → Option ℚ, ∀ value : String,
      (set_threshold parse_float value).isSome ↔
        ((parse_float value).isSome ∨ value = "viterbi")) ∧
    (∀ parse_float : String → Option ℚ, ∀ value : String, ∀ f : ℚ,
      parse_float value = some f →
        set_threshold parse_float value = some (Threshold.num f)) ∧
    (∀ parse_float : String → Option ℚ, ∀ value : String,
      parse_float value = none → value ≠ "viterbi" →
        set_threshold parse_float value = none) ∧
    (∀ t : ℚ, ∀ ks us : List String, ∀ post : List (List ℚ), ∀ vit : List Nat,
      process_path (Threshold.num t) ks us post vit =
        post.map (fun site => if (argmax_site site).2 > t
          then (ks ++ us).getD (argmax_site site).1 "" else ks.headD "")) ∧
    (∀ ks us : List String, ∀ post : List (List ℚ), ∀ vit : List Nat,
      process_path Threshold.viterbi ks us post vit =
        vit.map (fun i => (ks ++ us).getD i "")) := by
  refine ⟨?_, ?_, ?_, ?_, ?_⟩
  · intro pf v
    cases hpv : pf v with
    | some f => simp [set_threshold, hpv]
    | none =>
      simp only [set_threshold, hpv]
      by_cases hv : v = "viterbi" <;> simp [hv]
  · intro pf v f hf
    simp [set_threshold, hf]
  · intro pf v hf hv
    simp [set_threshold, hf, hv]
  · intro t ks us post vit
    rw [process_path]
    simp only [get_max_path, threshold_predicted]
    rw [List.zip_map', List.map_map]
    rfl
  · intro ks us post vit
    rfl

/-- Witness for claim C9 at concrete parser outcomes and a concrete Viterbi
path. -/
theorem set_threshold_process_path_spec_witness :
    set_threshold (fun _ => some (7/10)) "0.7" = some (Threshold.num (7/10)) ∧
    set_threshold (fun _ => none) "cutoff" = none ∧
    process_path Threshold.viterbi ["cer", "par"] [] [] [0, 1, 1] =
      ["cer", "par", "par"] := by
  have h := set_threshold_process_path_spec
  refine ⟨h.2.1 _ "0.7" _ rfl, h.2.2.1 _ "cutoff" rfl (by decide), ?_⟩
  rw [h.2.2.2.2]
  rfl

end Introgression
